import Mathlib

/-!
Shallow embedding of `src/my-next-app/src/app/api/proxy/[...slug]/route.ts`,
the single-route forwarding proxy of the repository.

The live request path is the `handler` function, which builds the target URL
from the configured upstream base, the captured slug segments and the raw
query string, filters the `host` header out of the outbound headers, forwards
the body for non-GET/HEAD methods, and translates the upstream response
(stripping `content-encoding` and `transfer-encoding`) or any fetch failure
(as a 502 JSON error) into the client-facing response.

Headers are modelled as ordered association lists of (name, value) pairs.
`headersDelete` models `Headers.delete` (case-insensitive removal of every
entry of that name) and `headersSet` models `Headers.set` (replace the first
entry of that name case-insensitively, drop the others, or append).
The outbound `fetch` is modelled as an oracle mapping the outbound request
to either a successful upstream response or a failure message.
-/

namespace Proxy

/-- Hardcoded development fallback for the upstream base URL
(`'https://jsonplaceholder.typicode.com'` in route.ts line 6). -/
def defaultTargetServerUrl : String := "https://jsonplaceholder.typicode.com"

/-- `const TARGET_SERVER_URL = process.env.TARGET_SERVER_URL || default`:
resolved once at module load from the environment; JavaScript `||` also
falls back when the variable is set to the empty string. -/
def TARGET_SERVER_URL (env : Option String) : String :=
  match env with
  | none => defaultTargetServerUrl
  | some s => if s = "" then defaultTargetServerUrl else s

/-- A header set, as an ordered list of (name, value) pairs. -/
abbrev HeaderList := List (String × String)

/-- ASCII lowercasing of a header name, modelling `key.toLowerCase()` and
the case-insensitive name matching of the `Headers` class. -/
def lowerString (s : String) : String := ⟨s.data.map Char.toLower⟩

/-- `Headers.delete(name)`: remove every entry whose name matches
case-insensitively. -/
def headersDelete (name : String) (hs : HeaderList) : HeaderList :=
  hs.filter (fun p => lowerString p.1 != lowerString name)

/-- `Headers.set(name, value)`: if an entry with that name exists
(case-insensitively), replace the first one's value and drop the rest;
otherwise append the pair. -/
def headersSet (name val : String) : HeaderList → HeaderList
  | [] => [(name, val)]
  | (k, v) :: rest =>
    if lowerString k = lowerString name then (k, val) :: headersDelete name rest
    else (k, v) :: headersSet name val rest

/-- The inbound `NextRequest` as the handler reads it: the method string,
the captured `slug` segments, the raw query string `req.nextUrl.search`
(empty or beginning with a question mark), the inbound header pairs, and an
optional body (a byte stream, modelled as a list of bytes). -/
structure NextRequest where
  method : String
  slug : List String
  search : String
  headers : HeaderList
  body : Option (List Nat)
deriving DecidableEq

/-- The seven methods the route exports a handler for
(GET, POST, PUT, DELETE, PATCH, HEAD, OPTIONS). -/
def supportedMethod (m : String) : Bool :=
  m == "GET" || m == "POST" || m == "PUT" || m == "DELETE" ||
  m == "PATCH" || m == "HEAD" || m == "OPTIONS"

/-- `targetPath = "/" + slug.join("/") + req.nextUrl.search` (route.ts line 70). -/
def targetPath (req : NextRequest) : String :=
  "/" ++ String.intercalate "/" req.slug ++ req.search

/-- The outbound request handed to `fetch`. -/
structure OutboundRequest where
  url : String
  method : String
  headers : HeaderList
  body : Option (List Nat)
deriving DecidableEq

/-- The arguments of the `fetch(targetUrl, {...})` call (route.ts lines 80-85):
the url is `TARGET_SERVER_URL + targetPath`, the method is forwarded, the
headers are the inbound headers with `host` deleted, and the body is the
inbound body unless the method is GET or HEAD. -/
def outboundRequest (base : String) (req : NextRequest) : OutboundRequest :=
  { url := base ++ targetPath req
    method := req.method
    headers := headersDelete "host" req.headers
    body := if req.method != "GET" && req.method != "HEAD" then req.body else none }

/-- A successful upstream `Response`. -/
structure UpstreamResponse where
  status : Nat
  statusText : String
  headers : HeaderList
  body : List Nat
deriving DecidableEq

/-- Outcome of the outbound `fetch`: a resolved upstream response, or a
rejection carrying `error.message`. -/
inductive FetchResult where
  | success (res : UpstreamResponse)
  | failure (message : String)
deriving DecidableEq

/-- Body of the client-facing response: either the upstream byte stream
relayed as-is, or the JSON object produced by `NextResponse.json`. -/
inductive ResponseBody where
  | stream (bytes : List Nat)
  | jsonObj (fields : List (String × String))
deriving DecidableEq

/-- The client-facing `NextResponse`. -/
structure ClientResponse where
  status : Nat
  statusText : String
  headers : HeaderList
  body : ResponseBody
deriving DecidableEq

/-- True for the response header names the handler refuses to copy:
`content-encoding` and `transfer-encoding`, compared on `key.toLowerCase()`
(route.ts line 92). -/
def strippedResponseHeader (key : String) : Bool :=
  lowerString key == "content-encoding" || lowerString key == "transfer-encoding"

/-- One iteration of the `targetRes.headers.forEach` loop (route.ts lines
89-95): `set` the pair into the accumulated headers unless its name is
stripped. -/
def copyStep (acc : HeaderList) (p : String × String) : HeaderList :=
  if strippedResponseHeader p.1 then acc else headersSet p.1 p.2 acc

/-- The `targetRes.headers.forEach` loop (route.ts lines 89-95): starting
from an empty `Headers`, `set` every upstream pair whose name is not
`content-encoding` or `transfer-encoding`. -/
def buildResponseHeaders (upstream : HeaderList) : HeaderList :=
  upstream.foldl copyStep []

/-- The values a header list holds for a given name, matched
case-insensitively, in list order. -/
def valuesFor (name : String) (hs : HeaderList) : List String :=
  (hs.filter (fun p => lowerString p.1 == lowerString name)).map Prod.snd

/-- The `resolve(new NextResponse(targetRes.body, {...}))` branch
(route.ts lines 97-101): upstream status, statusText and body verbatim,
headers filtered by `buildResponseHeaders`. -/
def relayResponse (upstream : UpstreamResponse) : ClientResponse :=
  { status := upstream.status
    statusText := upstream.statusText
    headers := buildResponseHeaders upstream.headers
    body := ResponseBody.stream upstream.body }

/-- The `.catch` branch (route.ts lines 103-106):
`NextResponse.json({ message: 'Proxy error', error: error.message }, { status: 502 })`. -/
def proxyErrorResponse (message : String) : ClientResponse :=
  { status := 502
    statusText := ""
    headers := [("content-type", "application/json")]
    body := ResponseBody.jsonObj [("message", "Proxy error"), ("error", message)] }

/-- The generic `handler` (route.ts lines 47-108): build the outbound
request, issue the single fetch, and translate its outcome into the
client-facing response. -/
def handler (base : String) (sendFetch : OutboundRequest → FetchResult)
    (req : NextRequest) : ClientResponse :=
  match sendFetch (outboundRequest base req) with
  | FetchResult.success upstream => relayResponse upstream
  | FetchResult.failure message => proxyErrorResponse message

/-- Reading a header list at a name that matches the head case-insensitively
returns the head value followed by the values of the tail. -/
theorem valuesFor_cons_eq (key k v : String) (l : HeaderList)
    (h : lowerString k = lowerString key) :
    valuesFor key ((k, v) :: l) = v :: valuesFor key l := by
  simp [valuesFor, List.filter_cons, h]

/-- Reading a header list at a name that does not match the head skips the
head. -/
theorem valuesFor_cons_ne (key k v : String) (l : HeaderList)
    (h : lowerString k ≠ lowerString key) :
    valuesFor key ((k, v) :: l) = valuesFor key l := by
  simp [valuesFor, List.filter_cons, h]

/-- Deleting a name removes every value stored under it. -/
theorem valuesFor_headersDelete_eq (key name : String) (hs : HeaderList)
    (h : lowerString key = lowerString name) :
    valuesFor key (headersDelete name hs) = [] := by
  unfold valuesFor headersDelete
  rw [List.filter_filter]
  have hall : ∀ p : String × String,
      ((lowerString p.1 == lowerString key) &&
        (lowerString p.1 != lowerString name)) = false := by
    intro p
    by_cases hp : lowerString p.1 = lowerString key
    · simp [hp, h]
    · simp [hp]
  simp [hall]

/-- Deleting one name leaves the values of every other name untouched. -/
theorem valuesFor_headersDelete_ne (key name : String) (hs : HeaderList)
    (h : lowerString key ≠ lowerString name) :
    valuesFor key (headersDelete name hs) = valuesFor key hs := by
  unfold valuesFor headersDelete
  rw [List.filter_filter]
  congr 1
  apply List.filter_congr
  intro p _
  by_cases hp : lowerString p.1 = lowerString key
  · rw [hp]
    simp [h]
  · simp [hp]

/-- After `set`, the header list holds exactly the written value under the
written name. -/
theorem valuesFor_headersSet_eq (key name val : String) (hs : HeaderList)
    (h : lowerString key = lowerString name) :
    valuesFor key (headersSet name val hs) = [val] := by
  induction hs with
  | nil =>
    rw [show headersSet name val [] = [(name, val)] from rfl,
      valuesFor_cons_eq key name val [] h.symm]
    rfl
  | cons p rest ih =>
    obtain ⟨k, v⟩ := p
    by_cases hk : lowerString k = lowerString name
    · simp only [headersSet, if_pos hk]
      rw [valuesFor_cons_eq key k val _ (hk.trans h.symm),
        valuesFor_headersDelete_eq key name rest h]
    · simp only [headersSet, if_neg hk]
      rw [valuesFor_cons_ne key k v _ (fun hc => hk (hc.trans h)), ih]

/-- `set` does not change the values stored under any other name. -/
theorem valuesFor_headersSet_ne (key name val : String) (hs : HeaderList)
    (h : lowerString key ≠ lowerString name) :
    valuesFor key (headersSet name val hs) = valuesFor key hs := by
  induction hs with
  | nil =>
    rw [show headersSet name val [] = [(name, val)] from rfl,
      valuesFor_cons_ne key name val [] (fun hc => h hc.symm)]
  | cons p rest ih =>
    obtain ⟨k, v⟩ := p
    by_cases hk : lowerString k = lowerString name
    · have hck : lowerString k ≠ lowerString key := fun hc => h (hc.symm.trans hk)
      simp only [headersSet, if_pos hk]
      rw [valuesFor_cons_ne key k val _ hck, valuesFor_cons_ne key k v _ hck,
        valuesFor_headersDelete_ne key name rest h]
    · simp only [headersSet, if_neg hk]
      by_cases hck : lowerString k = lowerString key
      · rw [valuesFor_cons_eq key k v _ hck, valuesFor_cons_eq key k v _ hck, ih]
      · rw [valuesFor_cons_ne key k v _ hck, valuesFor_cons_ne key k v _ hck, ih]

/-- Every entry of `headersSet name val hs` either carries the written name
or a name already present in `hs`. -/
theorem mem_headersSet (name val : String) (hs : HeaderList) (p : String × String)
    (hp : p ∈ headersSet name val hs) :
    p.1 = name ∨ ∃ v, (p.1, v) ∈ hs := by
  induction hs with
  | nil =>
    simp only [headersSet, List.mem_singleton] at hp
    exact Or.inl (by rw [hp])
  | cons q rest ih =>
    obtain ⟨k, v⟩ := q
    by_cases hk : lowerString k = lowerString name
    · simp only [headersSet, if_pos hk, List.mem_cons] at hp
      rcases hp with hp | hp
      · exact Or.inr ⟨v, by rw [hp]; exact List.mem_cons_self _ _⟩
      · simp only [headersDelete] at hp
        exact Or.inr ⟨p.2, List.mem_cons_of_mem _ (List.mem_of_mem_filter hp)⟩
    · simp only [headersSet, if_neg hk, List.mem_cons] at hp
      rcases hp with hp | hp
      · exact Or.inr ⟨v, by rw [hp]; exact List.mem_cons_self _ _⟩
      · rcases ih hp with h1 | ⟨w, hw⟩
        · exact Or.inl h1
        · exact Or.inr ⟨w, List.mem_cons_of_mem _ hw⟩

/-- The response-header loop never introduces a stripped name: starting from
an accumulator free of stripped names, the fold stays free of them. -/
theorem foldl_copyStep_stripped :
    ∀ (hs acc : HeaderList), (∀ p ∈ acc, strippedResponseHeader p.1 = false) →
      ∀ p ∈ hs.foldl copyStep acc, strippedResponseHeader p.1 = false := by
  intro hs
  induction hs with
  | nil => intro acc hacc p hp; exact hacc p hp
  | cons q rest ih =>
    intro acc hacc p hp
    rw [List.foldl_cons] at hp
    refine ih (copyStep acc q) ?_ p hp
    intro r hr
    unfold copyStep at hr
    by_cases hq : strippedResponseHeader q.1 = true
    · rw [if_pos hq] at hr; exact hacc r hr
    · rw [if_neg hq] at hr
      rcases mem_headersSet q.1 q.2 acc r hr with h1 | ⟨v, hv⟩
      · rw [h1]; simpa using hq
      · exact hacc (r.1, v) hv

/-- If the remaining upstream entries hold no value for a name, the fold
leaves that name's values in the accumulator unchanged. -/
theorem foldl_copyStep_valuesFor_nil (key : String) :
    ∀ (hs acc : HeaderList), valuesFor key hs = [] →
      valuesFor key (hs.foldl copyStep acc) = valuesFor key acc := by
  intro hs
  induction hs with
  | nil => intro acc _; rfl
  | cons q rest ih =>
    obtain ⟨k, v⟩ := q
    intro acc h
    by_cases hk : lowerString k = lowerString key
    · rw [valuesFor_cons_eq key k v rest hk] at h
      exact absurd h (by simp)
    · rw [valuesFor_cons_ne key k v rest hk] at h
      rw [List.foldl_cons, ih (copyStep acc (k, v)) h]
      unfold copyStep
      by_cases hstrip : strippedResponseHeader (k, v).1 = true
      · rw [if_pos hstrip]
      · rw [if_neg hstrip]
        exact valuesFor_headersSet_ne key k v acc (fun hc => hk hc.symm)

/-- If the last upstream value for a non-stripped name is `v`, the fold ends
holding exactly `[v]` under that name, whatever the accumulator held. -/
theorem foldl_copyStep_valuesFor_last (key v : String)
    (hk : strippedResponseHeader key = false) :
    ∀ (hs acc : HeaderList), (valuesFor key hs).getLast? = some v →
      valuesFor key (hs.foldl copyStep acc) = [v] := by
  intro hs
  induction hs with
  | nil => intro acc h; simp [valuesFor] at h
  | cons q rest ih =>
    obtain ⟨k0, v0⟩ := q
    intro acc h
    rw [List.foldl_cons]
    by_cases hk0 : lowerString k0 = lowerString key
    · have hstrip : strippedResponseHeader k0 = false := by
        unfold strippedResponseHeader at hk ⊢
        rw [hk0]; exact hk
      have hstep : copyStep acc (k0, v0) = headersSet k0 v0 acc := by
        unfold copyStep
        exact if_neg (by simp [hstrip])
      rw [valuesFor_cons_eq key k0 v0 rest hk0] at h
      by_cases hrest : valuesFor key rest = []
      · rw [hrest] at h
        simp only [List.getLast?_singleton, Option.some.injEq] at h
        rw [hstep, foldl_copyStep_valuesFor_nil key rest (headersSet k0 v0 acc) hrest,
          valuesFor_headersSet_eq key k0 v0 acc hk0.symm, h]
      · obtain ⟨x, xs, hxs⟩ := List.exists_cons_of_ne_nil hrest
        rw [hxs, List.getLast?_cons_cons, ← hxs] at h
        rw [hstep]
        exact ih (headersSet k0 v0 acc) h
    · rw [valuesFor_cons_ne key k0 v0 rest hk0] at h
      exact ih (copyStep acc (k0, v0)) h

/-- C1: for an inbound request with a supported method, the one outbound
request issued by the handler carries the same method, and its URL is the
configured upstream base concatenated with "/", the slug segments joined by
"/", and the raw query string appended verbatim; with an empty slug the
target path reduces to "/" followed by the query string. -/
theorem outbound_method_and_url (base : String) (req : NextRequest)
    (hm : supportedMethod req.method = true) :
    (outboundRequest base req).method = req.method ∧
    (outboundRequest base req).url =
      base ++ "/" ++ String.intercalate "/" req.slug ++ req.search ∧
    (req.slug = [] → targetPath req = "/" ++ req.search) := by
  refine ⟨rfl, ?_, ?_⟩
  · simp [outboundRequest, targetPath, String.append_assoc]
  · intro h
    simp [targetPath, h, String.intercalate]

/-- Witness for C1 at a concrete GET request with two slug segments and a
query string. -/
theorem outbound_method_and_url_witness :
    supportedMethod "GET" = true ∧
    (outboundRequest "https://api.example.com"
        ⟨"GET", ["users", "123"], "?active=true", [("host", "h")], none⟩).url =
      "https://api.example.com" ++ "/" ++
        String.intercalate "/" ["users", "123"] ++ "?active=true" :=
  ⟨by decide,
    (outbound_method_and_url "https://api.example.com"
      ⟨"GET", ["users", "123"], "?active=true", [("host", "h")], none⟩
      (by decide)).2.1⟩

/-- C2: whenever the outbound fetch fails, the handler resolves with the
proxy error response: status 502 and a JSON body carrying exactly the
fields message = "Proxy error" and error = the failure description; the
body is not an upstream byte stream. -/
theorem failure_maps_to_502 (base : String)
    (sendFetch : OutboundRequest → FetchResult) (req : NextRequest)
    (message : String)
    (hf : sendFetch (outboundRequest base req) = FetchResult.failure message) :
    handler base sendFetch req = proxyErrorResponse message ∧
    (handler base sendFetch req).status = 502 ∧
    (handler base sendFetch req).body =
      ResponseBody.jsonObj [("message", "Proxy error"), ("error", message)] := by
  simp [handler, hf, proxyErrorResponse]

/-- Witness for C2 with a fetch oracle that always fails. -/
theorem failure_maps_to_502_witness :
    (fun _ : OutboundRequest => FetchResult.failure "connection refused")
        (outboundRequest "b" ⟨"GET", [], "", [], none⟩) =
      FetchResult.failure "connection refused" ∧
    (handler "b" (fun _ => FetchResult.failure "connection refused")
        ⟨"GET", [], "", [], none⟩).status = 502 :=
  ⟨rfl,
    (failure_maps_to_502 "b" (fun _ => FetchResult.failure "connection refused")
      ⟨"GET", [], "", [], none⟩ "connection refused" rfl).2.1⟩

/-- C4: for GET and HEAD the outbound request carries no body even when the
inbound request has one; for every other supported method the inbound body
is forwarded unchanged. -/
theorem body_forwarding (base : String) (req : NextRequest) :
    ((req.method = "GET" ∨ req.method = "HEAD") →
      (outboundRequest base req).body = none) ∧
    (req.method ≠ "GET" → req.method ≠ "HEAD" →
      (outboundRequest base req).body = req.body) := by
  constructor
  · rintro (h | h) <;> simp [outboundRequest, h]
  · intro h1 h2
    simp [outboundRequest, h1, h2]

/-- C5: on a successful upstream response the client-facing response carries
the upstream status code and status text verbatim and relays the upstream
body bytes unchanged. -/
theorem success_relays_status_and_body (base : String)
    (sendFetch : OutboundRequest → FetchResult) (req : NextRequest)
    (upstream : UpstreamResponse)
    (hs : sendFetch (outboundRequest base req) = FetchResult.success upstream) :
    (handler base sendFetch req).status = upstream.status ∧
    (handler base sendFetch req).statusText = upstream.statusText ∧
    (handler base sendFetch req).body = ResponseBody.stream upstream.body := by
  simp [handler, hs, relayResponse]

/-- Witness for C5: a 200 upstream response with body bytes is relayed. -/
theorem success_relays_status_and_body_witness :
    (fun _ : OutboundRequest =>
        FetchResult.success ⟨200, "OK", [("a", "1")], [123]⟩)
        (outboundRequest "b" ⟨"GET", [], "", [], none⟩) =
      FetchResult.success ⟨200, "OK", [("a", "1")], [123]⟩ ∧
    (handler "b" (fun _ => FetchResult.success ⟨200, "OK", [("a", "1")], [123]⟩)
        ⟨"GET", [], "", [], none⟩).status = 200 :=
  ⟨rfl,
    (success_relays_status_and_body "b"
      (fun _ => FetchResult.success ⟨200, "OK", [("a", "1")], [123]⟩)
      ⟨"GET", [], "", [], none⟩ ⟨200, "OK", [("a", "1")], [123]⟩ rfl).1⟩

/-- C7: every handler invocation produces a response: the fetch outcome is
either a success, relayed by `relayResponse`, or a failure, converted to the
502 proxy error response; no third outcome leaves the invocation without a
response. -/
theorem handler_always_responds (base : String)
    (sendFetch : OutboundRequest → FetchResult) (req : NextRequest) :
    (∃ upstream, sendFetch (outboundRequest base req) = FetchResult.success upstream ∧
      handler base sendFetch req = relayResponse upstream) ∨
    (∃ message, sendFetch (outboundRequest base req) = FetchResult.failure message ∧
      handler base sendFetch req = proxyErrorResponse message) := by
  cases h : sendFetch (outboundRequest base req) with
  | success upstream => exact Or.inl ⟨upstream, rfl, by simp [handler, h]⟩
  | failure message => exact Or.inr ⟨message, rfl, by simp [handler, h]⟩

/-- C8: when the TARGET_SERVER_URL environment variable is absent the
resolved upstream base is the hardcoded default, and the handler behaves on
every request exactly as it does with the default base. -/
theorem default_upstream_fallback :
    TARGET_SERVER_URL none = defaultTargetServerUrl ∧
    ∀ (sendFetch : OutboundRequest → FetchResult) (req : NextRequest),
      handler (TARGET_SERVER_URL none) sendFetch req =
        handler defaultTargetServerUrl sendFetch req :=
  ⟨rfl, fun _ _ => rfl⟩

/-- C9: the handler is deterministic and stateless: two invocations on the
same inbound request whose fetches return the same upstream outcome produce
identical client-facing responses. -/
theorem handler_deterministic (base : String)
    (sendFetch1 sendFetch2 : OutboundRequest → FetchResult)
    (req1 req2 : NextRequest) (hreq : req1 = req2)
    (hfetch : sendFetch1 (outboundRequest base req1) =
      sendFetch2 (outboundRequest base req2)) :
    handler base sendFetch1 req1 = handler base sendFetch2 req2 := by
  subst hreq
  simp [handler, hfetch]

/-- Witness for C9 at a concrete request and two extensionally equal fetch
oracles. -/
theorem handler_deterministic_witness :
    handler "b" (fun _ => FetchResult.failure "x") ⟨"GET", [], "", [], none⟩ =
      handler "b" (fun r => FetchResult.failure (r.method.take 0 ++ "x"))
        ⟨"GET", [], "", [], none⟩ :=
  handler_deterministic "b" (fun _ => FetchResult.failure "x")
    (fun r => FetchResult.failure (r.method.take 0 ++ "x"))
    ⟨"GET", [], "", [], none⟩ ⟨"GET", [], "", [], none⟩ rfl rfl

/-- C3: the outbound header set is the inbound one with exactly the `host`
entries removed (matched case-insensitively): no outbound header is named
`host`, and every other inbound header pair is forwarded with its value
unchanged. -/
theorem host_header_filtering (base : String) (req : NextRequest) :
    (∀ p ∈ (outboundRequest base req).headers, lowerString p.1 ≠ "host") ∧
    (∀ p ∈ req.headers, lowerString p.1 ≠ "host" →
      p ∈ (outboundRequest base req).headers) := by
  have hlow : lowerString "host" = "host" := by decide
  constructor
  · intro p hp
    simp only [outboundRequest, headersDelete, List.mem_filter, bne_iff_ne, ne_eq] at hp
    rw [← hlow]
    exact hp.2
  · intro p hp hne
    simp only [outboundRequest, headersDelete, List.mem_filter, bne_iff_ne, ne_eq]
    exact ⟨hp, by rw [hlow]; exact hne⟩

/-- Witness for C3: a non-host inbound header survives the host deletion at
a concrete request. -/
theorem host_header_filtering_witness :
    ("x-a", "1") ∈ (outboundRequest "b"
      ⟨"GET", [], "", [("Host", "h"), ("x-a", "1")], none⟩).headers :=
  (host_header_filtering "b" ⟨"GET", [], "", [("Host", "h"), ("x-a", "1")], none⟩).2
    ("x-a", "1") (by decide) (by decide)

/-- Witness for C4: a POST body is forwarded unchanged at a concrete
request. -/
theorem body_forwarding_witness :
    (outboundRequest "b" ⟨"POST", ["orders"], "", [], some [1, 2]⟩).body =
      some [1, 2] :=
  (body_forwarding "b" ⟨"POST", ["orders"], "", [], some [1, 2]⟩).2
    (by decide) (by decide)

/-- C6: on a successful upstream response, the client-facing headers contain
no `content-encoding` and no `transfer-encoding` entry (matched
case-insensitively), and every other upstream header name is present among
the client-facing headers. -/
theorem response_header_filtering (base : String)
    (sendFetch : OutboundRequest → FetchResult) (req : NextRequest)
    (upstream : UpstreamResponse)
    (hs : sendFetch (outboundRequest base req) = FetchResult.success upstream) :
    (∀ p ∈ (handler base sendFetch req).headers,
      lowerString p.1 ≠ "content-encoding" ∧ lowerString p.1 ≠ "transfer-encoding") ∧
    (∀ p ∈ upstream.headers, strippedResponseHeader p.1 = false →
      ∃ q ∈ (handler base sendFetch req).headers,
        lowerString q.1 = lowerString p.1) := by
  have hh : (handler base sendFetch req).headers =
      upstream.headers.foldl copyStep [] := by
    simp [handler, hs, relayResponse, buildResponseHeaders]
  constructor
  · intro p hp
    rw [hh] at hp
    have hstr := foldl_copyStep_stripped upstream.headers []
      (by intro r hr; simp at hr) p hp
    unfold strippedResponseHeader at hstr
    constructor
    · intro hc
      rw [hc] at hstr
      simp at hstr
    · intro hc
      rw [hc] at hstr
      simp at hstr
  · intro p hp hns
    have hne : valuesFor p.1 upstream.headers ≠ [] := by
      unfold valuesFor
      intro hnil
      rw [List.map_eq_nil_iff] at hnil
      have hmem : p ∈ upstream.headers.filter
          (fun q => lowerString q.1 == lowerString p.1) := by
        rw [List.mem_filter]
        exact ⟨hp, by simp⟩
      rw [hnil] at hmem
      exact (List.not_mem_nil p) hmem
    obtain ⟨v, hv⟩ :=
      Option.isSome_iff_exists.mp (List.getLast?_isSome.mpr hne)
    have hres := foldl_copyStep_valuesFor_last p.1 v hns upstream.headers [] hv
    have hfil : (upstream.headers.foldl copyStep []).filter
        (fun q => lowerString q.1 == lowerString p.1) ≠ [] := by
      intro hnil
      unfold valuesFor at hres
      rw [hnil] at hres
      simp at hres
    obtain ⟨q, hq⟩ := List.exists_mem_of_ne_nil _ hfil
    rw [List.mem_filter] at hq
    refine ⟨q, ?_, by simpa using hq.2⟩
    rw [hh]
    exact hq.1

/-- Witness for C6: with a concrete upstream response carrying a
content-encoding header and a custom header, the custom header name is
present in the client-facing headers. -/
theorem response_header_filtering_witness :
    (fun _ : OutboundRequest => FetchResult.success
        ⟨200, "OK", [("Content-Encoding", "gzip"), ("X-A", "1")], []⟩)
        (outboundRequest "b" ⟨"GET", [], "", [], none⟩) =
      FetchResult.success
        ⟨200, "OK", [("Content-Encoding", "gzip"), ("X-A", "1")], []⟩ ∧
    ∃ q ∈ (handler "b"
        (fun _ => FetchResult.success
          ⟨200, "OK", [("Content-Encoding", "gzip"), ("X-A", "1")], []⟩)
        ⟨"GET", [], "", [], none⟩).headers,
      lowerString q.1 = lowerString "X-A" :=
  ⟨rfl,
    (response_header_filtering "b"
      (fun _ => FetchResult.success
        ⟨200, "OK", [("Content-Encoding", "gzip"), ("X-A", "1")], []⟩)
      ⟨"GET", [], "", [], none⟩
      ⟨200, "OK", [("Content-Encoding", "gzip"), ("X-A", "1")], []⟩ rfl).2
      ("X-A", "1") (by simp) (by decide)⟩

/-- C10: when a non-stripped header name occurs with several values in the
upstream response, the translated client-facing headers keep exactly one
value for it: the last one in iteration order. -/
theorem multi_value_headers_collapse (upstream : HeaderList) (key : String)
    (hk : strippedResponseHeader key = false)
    (hmulti : 2 ≤ (valuesFor key upstream).length) :
    ∃ v, (valuesFor key upstream).getLast? = some v ∧
      valuesFor key (buildResponseHeaders upstream) = [v] := by
  have hne : valuesFor key upstream ≠ [] := by
    intro h
    rw [h] at hmulti
    simp at hmulti
  obtain ⟨v, hv⟩ :=
    Option.isSome_iff_exists.mp (List.getLast?_isSome.mpr hne)
  exact ⟨v, hv, foldl_copyStep_valuesFor_last key v hk upstream [] hv⟩

/-- Witness for C10: two set-cookie values collapse to the last one. -/
theorem multi_value_headers_collapse_witness :
    strippedResponseHeader "set-cookie" = false ∧
    2 ≤ (valuesFor "set-cookie"
      [("set-cookie", "a=1"), ("set-cookie", "b=2")]).length ∧
    ∃ v, ((valuesFor "set-cookie"
        [("set-cookie", "a=1"), ("set-cookie", "b=2")]).getLast? = some v ∧
      valuesFor "set-cookie" (buildResponseHeaders
        [("set-cookie", "a=1"), ("set-cookie", "b=2")]) = [v]) :=
  ⟨by decide, by decide,
    multi_value_headers_collapse [("set-cookie", "a=1"), ("set-cookie", "b=2")]
      "set-cookie" (by decide) (by decide)⟩

end Proxy
